import Mathlib

/-!
Verification of the unzip-http-go remote ZIP reader.

The Go sources are shallowly embedded: Go strings become lists of
characters, byte slices become lists of naturals, the HTTP transport
becomes an explicit function from (attempt, range start, inclusive range
end) to a response, and every fmt.Errorf site becomes one constructor of
an error type.  Each definition mirrors one Go function and is named
after it.
-/

namespace UnzipHttp

/-- Go strings are modelled as lists of characters. -/
abbrev Str := List Char

/-! ## Pattern matching (matchPattern in the CLI source) -/

/-- Embedding of Go strings.Split for a single-character separator: the
list is split at every occurrence of the separator, so n occurrences
yield n+1 fields. -/
def goSplit (sep : Char) : Str → List Str
  | [] => [[]]
  | c :: rest =>
    if c = sep then
      [] :: goSplit sep rest
    else
      match goSplit sep rest with
      | [] => [[c]]
      | h :: t => (c :: h) :: t

/-- Embedding of matchPattern.  filepath.ToSlash is the identity on a
forward-slash platform, so the normalisation step is dropped;
strings.Contains is modelled as decidable membership of the character. -/
def matchPattern (pattern name : Str) : Bool :=
  if pattern = name then true
  else if '*' ∈ pattern then
    match goSplit '*' pattern with
    | [pre, suf] => pre.isPrefixOf name && suf.isSuffixOf name
    | _ => false
  else false

/-! ## Archive handles and extraction (RemoteZipFile methods and the CLI) -/

/-- One archive entry as exposed by the central directory: its stored
name and its (decompressed) content. -/
structure ZEntry where
  name : Str
  data : List Nat
deriving DecidableEq

/-- Embedding of f.FileInfo().IsDir() for a zip entry: true when the
stored name is nonempty and ends in a slash (the MS-DOS directory
attribute path of archive/zip is not modelled). -/
def isDirEntry (f : ZEntry) : Bool := f.name.getLast? == some '/'

/-- The observable state of a RemoteZipFile handle after a successful
open: its URL, discovered size and the parsed file list. -/
structure RemoteZipFile where
  url : Str
  size : Nat
  files : List ZEntry
deriving DecidableEq

/-- Embedding of RemoteZipFile.Close: the Go method only calls
CloseIdleConnections on the pooled transport; it touches no field of the
receiver and later requests still succeed over fresh connections, so the
handle's observable state is unchanged. -/
def Close (rzf : RemoteZipFile) : RemoteZipFile := rzf

/-- Modelled network-level failures of an HTTP round trip. -/
inductive NetErr where
  | connReset
  | timeout
deriving DecidableEq

/-- Error values returned by the Go code; each constructor stands for one
fmt.Errorf site. -/
inductive GoErr where
  | netErr : NetErr → GoErr
  | unexpectedStatus : Nat → GoErr
  | rangeUnsupported
  | noContentLength
  | eocdNotFound
  | fileNotFound
  | noFilesMatched
deriving DecidableEq

/-- Embedding of RemoteZipFile.Open: linear scan of the file list for the
first entry whose name equals the requested one. -/
def Open (rzf : RemoteZipFile) (name : Str) : Except GoErr ZEntry :=
  match rzf.files.find? (fun f => f.name == name) with
  | some f => .ok f
  | none => .error .fileNotFound

/-- Embedding of RemoteZipFile.Extract: Open then read the whole entry;
the bytes delivered are the entry's content. -/
def Extract (rzf : RemoteZipFile) (name : Str) : Except GoErr (List Nat) :=
  match Open rzf name with
  | .ok f => .ok f.data
  | .error e => .error e

/-- Embedding of the loop body of extractFiles in stdout mode: walks the
archive's file list in order, accumulating the bytes written to stdout
and whether anything matched.  The error branch mirrors the Go early
return; it is unreachable here because every extracted name comes from
the listing itself, so Open always finds an entry. -/
def extractLoop (rzf : RemoteZipFile) (pattern : Str) :
    List ZEntry → Bool → List Nat → Except GoErr (List Nat × Bool)
  | [], matchedAcc, out => .ok (out, matchedAcc)
  | f :: rest, matchedAcc, out =>
    if matchPattern pattern f.name then
      if isDirEntry f then
        extractLoop rzf pattern rest true out
      else
        match Extract rzf f.name with
        | .error e => .error e
        | .ok data => extractLoop rzf pattern rest true (out ++ data)
    else
      extractLoop rzf pattern rest matchedAcc out

/-- Embedding of extractFiles with writeStdout set: returns the bytes
written to stdout, or the no-files-matched error when nothing matched. -/
def extractFilesStdout (rzf : RemoteZipFile) (pattern : Str) : Except GoErr (List Nat) :=
  match extractLoop rzf pattern rzf.files false [] with
  | .error e => .error e
  | .ok (out, matchedAcc) => if matchedAcc then .ok out else .error .noFilesMatched

/-- Embedding of the pattern loop in main with -o: each pattern argument
is processed independently in argument order; a failed pattern prints to
stderr and contributes no stdout bytes. -/
def mainStdout (rzf : RemoteZipFile) : List Str → List Nat
  | [] => []
  | p :: ps =>
    (match extractFilesStdout rzf p with
     | .ok out => out
     | .error _ => []) ++ mainStdout rzf ps

/-- Concatenation of the contents of a list of entries, used to state
ordering properties of the concatenated sink. -/
def catData : List ZEntry → List Nat
  | [] => []
  | f :: rest => f.data ++ catData rest

/-! ## Concrete archive used by scenario claims -/

/-- Entry a.txt of the scenario archive. -/
def aTxt : ZEntry := ⟨['a', '.', 't', 'x', 't'], [1]⟩

/-- Entry dir/b.txt of the scenario archive. -/
def dirBTxt : ZEntry := ⟨['d', 'i', 'r', '/', 'b', '.', 't', 'x', 't'], [2]⟩

/-- Entry c.bin of the scenario archive. -/
def cBin : ZEntry := ⟨['c', '.', 'b', 'i', 'n'], [3]⟩

/-- The scenario archive with central-directory order a.txt, dir/b.txt, c.bin. -/
def demoArchive : RemoteZipFile := ⟨['u'], 100, [aTxt, dirBTxt, cBin]⟩

/-- The pattern *.txt as a character list. -/
def starTxt : Str := ['*', '.', 't', 'x', 't']

/-- The pattern c.bin as a character list. -/
def cBinPat : Str := ['c', '.', 'b', 'i', 'n']

example : matchPattern starTxt aTxt.name = true := by decide
example : matchPattern starTxt dirBTxt.name = true := by decide
example : matchPattern starTxt cBin.name = false := by decide
example : extractFilesStdout demoArchive starTxt = .ok [1, 2] := rfl
example : mainStdout demoArchive [cBinPat, starTxt] = [3, 1, 2] := rfl

/-! ## HTTP transport and getRange -/

/-- A plain HTTP response: status code and body bytes. -/
structure HttpResponse where
  status : Nat
  body : List Nat
deriving DecidableEq

/-- A transport maps (attempt number, range start, inclusive range end) to
the outcome of that http.Client.Do call; getRange sends the header
Range: bytes=start-(end-1), so the inclusive end is passed here. -/
abbrev Transport := Nat → Nat → Nat → Except NetErr HttpResponse

/-- Embedding of RemoteZipFile.getRange: issues exactly one request
(attempt 0) with Range: bytes=start-(end-1); status 206 (partial
content) and status 200 (OK) are both accepted, any other status is an
error, and the body is returned without any length check. -/
def getRange (t : Transport) (s e : Nat) : Except GoErr (List Nat) :=
  match t 0 s (e - 1) with
  | .error ne => .error (.netErr ne)
  | .ok resp =>
    if resp.status = 206 ∨ resp.status = 200 then .ok resp.body
    else .error (.unexpectedStatus resp.status)

/-- A compliant range server over ground-truth content: every request is
answered with 206 and exactly the bytes start..endIncl of the content. -/
def honest206 (content : List Nat) : Transport :=
  fun _ s eIncl => .ok ⟨206, (content.drop s).take (eIncl + 1 - s)⟩

/-- A server that ignores the Range header and always answers 200 with
the full content. -/
def full200 (content : List Nat) : Transport :=
  fun _ _ _ => .ok ⟨200, content⟩

/-- A flaky server: the first attempt of every request times out, and any
retry would succeed with a compliant 206 answer. -/
def failThenOk (content : List Nat) : Transport :=
  fun attempt s eIncl =>
    if attempt = 0 then .error .timeout
    else .ok ⟨206, (content.drop s).take (eIncl + 1 - s)⟩

/-! ## remoteReaderAt.ReadAt -/

/-- Embedding of the Go built-in copy(dst, src): the first
min(len src, len dst) positions of dst are overwritten from src. -/
def goCopy (dst src : List Nat) : List Nat :=
  src.take dst.length ++ dst.drop (min src.length dst.length)

/-- Embedding of remoteReaderAt.ReadAt: fetch len(p) bytes at off, report
a getRange failure as (0, the error, p unchanged), and a success as
(len(data), no error, p after copy) — even when fewer (or more) bytes
than len(p) came back. -/
def ReadAt (t : Transport) (p : List Nat) (off : Nat) : Nat × Option GoErr × List Nat :=
  match getRange t off (off + p.length) with
  | .error e => (0, some e, p)
  | .ok data => (data.length, none, goCopy p data)

/-! ## EOCD search (readCentralDirectory) -/

/-- The 4-byte End-Of-Central-Directory signature 0x50 0x4b 0x05 0x06. -/
def eocdSignature : List Nat := [0x50, 0x4b, 0x05, 0x06]

/-- Embedding of bytes.Equal(endData[i:i+4], eocdSignature).  The Go
slice is only taken at i ≤ len-22, where all four bytes exist; taking
fewer than four bytes here makes the comparison false, which agrees with
the loop's domain. -/
def sigAt (endData : List Nat) (i : Nat) : Bool :=
  (endData.drop i).take 4 == eocdSignature

/-- The backward scan of readCentralDirectory from index k down to 0:
the first hit found, i.e. the largest index ≤ k holding the signature. -/
def findFrom (endData : List Nat) : Nat → Option Nat
  | 0 => if sigAt endData 0 then some 0 else none
  | k + 1 => if sigAt endData (k + 1) then some (k + 1) else findFrom endData k

/-- Embedding of the EOCD search loop
for i := len(endData)-22; i >= 0; i-- { ... }: when the window holds
fewer than 22 bytes the body never runs and the position stays -1
(none); otherwise the scan starts at len-22. -/
def findEOCD (endData : List Nat) : Option Nat :=
  if endData.length < 22 then none
  else findFrom endData (endData.length - 22)

/-- Embedding of the EOCD stage of readCentralDirectory: a failed scan is
the could-not-find-EOCD error (the spec's CorruptArchive), a successful
one yields the position. -/
def readCentralDirectoryCheck (endData : List Nat) : Except GoErr Nat :=
  match findEOCD endData with
  | some i => .ok i
  | none => .error .eocdNotFound

/-- Spec wording (4.2): a candidate position is one holding the
signature whose implied comment length (window length − candidate −
fixed EOCD size 22) is consistent with the bytes actually remaining in
the window, i.e. the fixed 22-byte record does not overrun the window. -/
def consistentCandidate (endData : List Nat) (i : Nat) : Prop :=
  sigAt endData i = true ∧ i + 22 ≤ endData.length

instance (endData : List Nat) (i : Nat) : Decidable (consistentCandidate endData i) := by
  unfold consistentCandidate
  infer_instance

/-- A crafted window: an EOCD record whose 21-byte comment ends with
signature-like bytes.  The signature occurs at positions 0 and 39; only
position 0 is consistent (39 + 22 > 43). -/
def craftedWindow : List Nat :=
  eocdSignature ++ [0, 0, 0, 0, 0, 0, 0, 0, 0, 0, 0, 0, 0, 0, 0, 0, 21, 0] ++
    [0, 0, 0, 0, 0, 0, 0, 0, 0, 0, 0, 0, 0, 0, 0, 0, 0] ++ eocdSignature

example : craftedWindow.length = 43 := by decide
example : sigAt craftedWindow 39 = true := by decide
example : findEOCD craftedWindow = some 0 := by decide

/-! ## The tail window size (readCentralDirectory) -/

/-- Embedding of the searchSize computation:
searchSize := 65536; if searchSize > size { searchSize = size }. -/
def searchSizeOf (size : Nat) : Nat :=
  if 65536 > size then size else 65536

/-- Modelled from the spec: the spec's tail-window formula min(size, W)
with W = 64 KiB + the fixed EOCD record size of 22 bytes. -/
def specTailWindow (size : Nat) : Nat := min size (65536 + 22)

/-- The byte range requested for the tail window:
getRange(rzf.size-searchSize, rzf.size). -/
def tailWindowRange (size : Nat) : Nat × Nat := (size - searchSizeOf size, size)

/-! ## The capability probe (NewRemoteZipFile) -/

/-- The fields of the HEAD response consulted by NewRemoteZipFile: the
status code, the Accept-Ranges header value (empty when absent) and the
content length (-1 when absent, the net/http convention). -/
structure ProbeResponse where
  status : Nat
  acceptRanges : Str
  contentLength : Int
deriving DecidableEq

/-- The header value bytes that Accept-Ranges is compared against. -/
def bytesTok : Str := ['b', 'y', 't', 'e', 's']

/-- Embedding of NewRemoteZipFile up to the capability probe.  The
central-directory stage (which issues all byte-range requests) is
abstracted as a continuation receiving the discovered size; both it and
the whole function return the open result together with the list of
byte ranges requested on the remote resource. -/
def NewRemoteZipFile (probe : Except NetErr ProbeResponse)
    (readCD : Nat → Except GoErr RemoteZipFile × List (Nat × Nat)) :
    Except GoErr RemoteZipFile × List (Nat × Nat) :=
  match probe with
  | .error ne => (.error (.netErr ne), [])
  | .ok resp =>
    if resp.status ≠ 200 then (.error (.unexpectedStatus resp.status), [])
    else if resp.acceptRanges ≠ bytesTok then (.error .rangeUnsupported, [])
    else if resp.contentLength ≤ 0 then (.error .noContentLength, [])
    else readCD resp.contentLength.toNat

/-! ## Lemmas about goSplit -/

theorem goSplit_ne_nil (sep : Char) (l : Str) : goSplit sep l ≠ [] := by
  cases l with
  | nil => simp [goSplit]
  | cons c rest =>
    unfold goSplit
    split
    · simp
    · cases h : goSplit sep rest <;> simp

theorem goSplit_of_not_mem (sep : Char) : ∀ l : Str, sep ∉ l → goSplit sep l = [l]
  | [], _ => rfl
  | c :: rest, h => by
    have h1 : ¬ c = sep := by
      intro he
      subst he
      exact h (List.mem_cons_self c rest)
    have h2 : sep ∉ rest := fun hm => h (List.mem_cons_of_mem c hm)
    unfold goSplit
    rw [if_neg h1, goSplit_of_not_mem sep rest h2]

theorem goSplit_length (sep : Char) : ∀ l : Str, (goSplit sep l).length = l.count sep + 1
  | [] => rfl
  | c :: rest => by
    unfold goSplit
    by_cases hc : c = sep
    · rw [if_pos hc]
      have := goSplit_length sep rest
      subst hc
      simp [List.count_cons, this]
    · rw [if_neg hc]
      cases h : goSplit sep rest with
      | nil => exact absurd h (goSplit_ne_nil sep rest)
      | cons hd tl =>
        have hlen := goSplit_length sep rest
        rw [h] at hlen
        have hne : ¬ sep = c := fun he => hc he.symm
        simp [List.count_cons, hne]
        simpa using hlen

theorem goSplit_append_cons (sep : Char) : ∀ (a b : Str), sep ∉ a →
    goSplit sep (a ++ sep :: b) = a :: goSplit sep b
  | [], b, _ => by simp [goSplit]
  | c :: a, b, h => by
    have h1 : ¬ c = sep := by
      intro he
      subst he
      exact h (List.mem_cons_self c a)
    have h2 : sep ∉ a := fun hm => h (List.mem_cons_of_mem c hm)
    show goSplit sep (c :: (a ++ sep :: b)) = (c :: a) :: goSplit sep b
    conv_lhs => unfold goSplit
    rw [if_neg h1, goSplit_append_cons sep a b h2]

/-! ## Lemmas about the EOCD backward scan -/

theorem findFrom_none (d : List Nat) (k : Nat) :
    findFrom d k = none ↔ ∀ j, j ≤ k → sigAt d j = false := by
  induction k with
  | zero =>
    unfold findFrom
    by_cases hs : sigAt d 0
    · simp [hs]
    · simp [hs]
  | succ k ih =>
    unfold findFrom
    by_cases hs : sigAt d (k + 1)
    · simp [hs]
      exact ⟨k + 1, Nat.le_refl _, hs⟩
    · rw [if_neg hs, ih]
      constructor
      · intro h j hj
        rcases Nat.lt_or_ge j (k + 1) with hlt | hge
        · exact h j (Nat.lt_succ_iff.mp hlt)
        · have : j = k + 1 := Nat.le_antisymm hj hge
          subst this
          exact Bool.not_eq_true _ |>.mp hs
      · intro h j hj
        exact h j (Nat.le_succ_of_le hj)

theorem findFrom_some (d : List Nat) : ∀ (k i : Nat), findFrom d k = some i →
    sigAt d i = true ∧ i ≤ k ∧ ∀ j, j ≤ k → sigAt d j = true → j ≤ i := by
  intro k
  induction k with
  | zero =>
    intro i h
    unfold findFrom at h
    by_cases hs : sigAt d 0
    · rw [if_pos hs] at h
      have : i = 0 := by injection h with h2; exact h2.symm
      subst this
      exact ⟨hs, Nat.le_refl 0, fun j hj _ => hj⟩
    · rw [if_neg hs] at h
      exact absurd h (by simp)
  | succ k ih =>
    intro i h
    unfold findFrom at h
    by_cases hs : sigAt d (k + 1)
    · rw [if_pos hs] at h
      have : i = k + 1 := by injection h with h2; exact h2.symm
      subst this
      exact ⟨hs, Nat.le_refl _, fun j hj _ => hj⟩
    · rw [if_neg hs] at h
      obtain ⟨h1, h2, h3⟩ := ih i h
      refine ⟨h1, Nat.le_succ_of_le h2, ?_⟩
      intro j hj hsig
      rcases Nat.lt_or_ge j (k + 1) with hlt | hge
      · exact h3 j (Nat.lt_succ_iff.mp hlt) hsig
      · have : j = k + 1 := Nat.le_antisymm hj hge
        subst this
        exact absurd hsig (by simpa using hs)

theorem findFrom_some_iff (d : List Nat) (k i : Nat) :
    findFrom d k = some i ↔
      sigAt d i = true ∧ i ≤ k ∧ ∀ j, j ≤ k → sigAt d j = true → j ≤ i := by
  constructor
  · exact findFrom_some d k i
  · rintro ⟨h1, h2, h3⟩
    cases hf : findFrom d k with
    | none =>
      rw [findFrom_none] at hf
      exact absurd h1 (by simp [hf i h2])
    | some i2 =>
      obtain ⟨g1, g2, g3⟩ := findFrom_some d k i2 hf
      have hle1 : i ≤ i2 := g3 i h2 h1
      have hle2 : i2 ≤ i := h3 i2 g2 g1
      have : i2 = i := Nat.le_antisymm hle2 hle1
      rw [this]

/-! ## Lemmas about lookup and the extraction loop -/

theorem find_name_of_nodup : ∀ (files : List ZEntry) (f : ZEntry),
    (files.map ZEntry.name).Nodup → f ∈ files →
    files.find? (fun g => g.name == f.name) = some f := by
  intro files
  induction files with
  | nil => intro f _ hf; cases hf
  | cons g rest ih =>
    intro f hnd hf
    simp only [List.map_cons, List.nodup_cons] at hnd
    rcases List.mem_cons.mp hf with rfl | hf2
    · simp [List.find?]
    · have hne : (g.name == f.name) = false := by
        simp only [beq_eq_false_iff_ne, ne_eq]
        intro he
        exact hnd.1 (he ▸ List.mem_map.mpr ⟨f, hf2, rfl⟩)
      simp only [List.find?, hne]
      exact ih f hnd.2 hf2

theorem extract_of_mem (rzf : RemoteZipFile) (f : ZEntry)
    (hnd : (rzf.files.map ZEntry.name).Nodup) (hf : f ∈ rzf.files) :
    Extract rzf f.name = .ok f.data := by
  unfold Extract Open
  rw [find_name_of_nodup rzf.files f hnd hf]

theorem extractLoop_spec (rzf : RemoteZipFile) (p : Str) :
    ∀ (rest : List ZEntry), (∀ f ∈ rest, Extract rzf f.name = .ok f.data) →
    ∀ (m : Bool) (out : List Nat),
    extractLoop rzf p rest m out =
      .ok (out ++ catData (rest.filter fun f => matchPattern p f.name && !(isDirEntry f)),
           m || rest.any fun f => matchPattern p f.name) := by
  intro rest
  induction rest with
  | nil => intro _ m out; simp [extractLoop, catData]
  | cons f rest ih =>
    intro h m out
    have hf : Extract rzf f.name = .ok f.data := h f (List.mem_cons_self f rest)
    have hrest : ∀ g ∈ rest, Extract rzf g.name = .ok g.data :=
      fun g hg => h g (List.mem_cons_of_mem f hg)
    unfold extractLoop
    by_cases hm : matchPattern p f.name
    · rw [if_pos hm]
      by_cases hd : isDirEntry f
      · rw [if_pos hd, ih hrest true out]
        simp [List.filter_cons, List.any_cons, hm, hd, catData]
      · rw [if_neg hd, hf]
        change extractLoop rzf p rest true (out ++ f.data) = _
        rw [ih hrest true (out ++ f.data)]
        simp [List.filter_cons, List.any_cons, hm, hd, catData]
    · rw [if_neg hm, ih hrest m out]
      have hm2 : matchPattern p f.name = false := by simpa using hm
      simp [List.filter_cons, List.any_cons, hm2]

theorem extractLoop_nomatch (rzf : RemoteZipFile) (p : Str) :
    ∀ (rest : List ZEntry), (∀ f ∈ rest, matchPattern p f.name = false) →
    ∀ (m : Bool) (out : List Nat), extractLoop rzf p rest m out = .ok (out, m) := by
  intro rest
  induction rest with
  | nil => intro _ m out; simp [extractLoop]
  | cons f rest ih =>
    intro h m out
    have hf : matchPattern p f.name = false := h f (List.mem_cons_self f rest)
    unfold extractLoop
    rw [if_neg (by simp [hf])]
    exact ih (fun g hg => h g (List.mem_cons_of_mem f hg)) m out

/-- A minimal window: the EOCD signature followed by the 18 remaining
fixed bytes of the record (zero comment length). -/
def minimalWindow : List Nat :=
  eocdSignature ++ [0, 0, 0, 0, 0, 0, 0, 0, 0, 0, 0, 0, 0, 0, 0, 0, 0, 0]

theorem readCDCheck_error_iff (endData : List Nat) :
    readCentralDirectoryCheck endData = .error .eocdNotFound ↔ findEOCD endData = none := by
  unfold readCentralDirectoryCheck
  cases findEOCD endData <;> simp

/-! ## Claim theorems -/

/-- C1: the EOCD scan of readCentralDirectory selects exactly the
rightmost candidate position whose implied comment length (window length
− position − 22) is consistent with the bytes actually remaining in the
window, i.e. whose fixed record does not overrun the window; and the
could-not-find-EOCD failure (the spec's CorruptArchive) occurs exactly
when no consistent candidate exists. -/
theorem c1_eocd_rightmost_consistent (endData : List Nat) :
    (∀ i, findEOCD endData = some i ↔
      consistentCandidate endData i ∧ ∀ j, consistentCandidate endData j → j ≤ i) ∧
    (readCentralDirectoryCheck endData = .error .eocdNotFound ↔
      ∀ j, ¬ consistentCandidate endData j) := by
  by_cases hlen : endData.length < 22
  · have hnone : findEOCD endData = none := by simp [findEOCD, hlen]
    constructor
    · intro i
      rw [hnone]
      constructor
      · intro h
        cases h
      · rintro ⟨⟨_, hb⟩, _⟩
        omega
    · rw [readCDCheck_error_iff, hnone]
      constructor
      · rintro _ j ⟨_, hb⟩
        omega
      · intro _
        rfl
  · have hge : 22 ≤ endData.length := Nat.le_of_not_lt hlen
    have heq : findEOCD endData = findFrom endData (endData.length - 22) := by
      simp [findEOCD, hlen]
    constructor
    · intro i
      rw [heq, findFrom_some_iff]
      unfold consistentCandidate
      constructor
      · rintro ⟨h1, h2, h3⟩
        refine ⟨⟨h1, by omega⟩, ?_⟩
        rintro j ⟨hj1, hj2⟩
        exact h3 j (by omega) hj1
      · rintro ⟨⟨h1, h2⟩, hmax⟩
        refine ⟨h1, by omega, ?_⟩
        intro j hj hsig
        exact hmax j ⟨hsig, by omega⟩
    · rw [readCDCheck_error_iff, heq, findFrom_none]
      constructor
      · rintro h j ⟨hs, hb⟩
        have := h j (by omega)
        rw [this] at hs
        cases hs
      · intro h j hj
        cases hbool : sigAt endData j with
        | false => rfl
        | true => exact absurd ⟨hbool, by omega⟩ (h j)

/-- Witness for C1: on a minimal 22-byte window the scan returns position
0, obtained through the rightmost-consistent characterisation. -/
theorem c1_eocd_rightmost_consistent_witness :
    findEOCD minimalWindow = some 0 :=
  ((c1_eocd_rightmost_consistent minimalWindow).1 0).mpr
    ⟨⟨by decide, by decide⟩, fun j hj => by
      have h1 := hj.2
      have h2 : minimalWindow.length = 22 := by decide
      omega⟩

/-- C2 counterexample: against a server that answers a sub-range request
with a full-content 200 response, getRange succeeds and returns 3 bytes,
although the requested range [0, 2) asks for 2 bytes and does not span
the whole 3-byte resource. -/
theorem c2_counterexample :
    getRange (full200 [10, 20, 30]) 0 2 = .ok [10, 20, 30] ∧
    ([10, 20, 30] : List Nat).length ≠ 2 - 0 ∧
    (2 : Nat) ≠ ([10, 20, 30] : List Nat).length :=
  ⟨rfl, by decide, by decide⟩

/-- C2 amended: getRange accepts a 206 response, and also a 200 response
for any requested range, returning the body without a length check; when
the server honours the range with a 206 response carrying exactly the
requested bytes, getRange returns exactly e − s bytes identical to the
ground-truth content. -/
theorem c2_amended (content : List Nat) (s e : Nat) (h1 : s < e) (h2 : e ≤ content.length) :
    getRange (honest206 content) s e = .ok ((content.drop s).take (e - s)) ∧
    ((content.drop s).take (e - s)).length = e - s := by
  have harith : e - 1 + 1 - s = e - s := by omega
  constructor
  · simp [getRange, honest206, harith]
  · rw [List.length_take, List.length_drop]
    omega

/-- Witness for the amended C2 at the concrete range [0, 2) of a 3-byte
resource. -/
theorem c2_amended_witness :
    getRange (honest206 [10, 20, 30]) 0 2 = .ok [10, 20] := by
  rw [(c2_amended [10, 20, 30] 0 2 (by decide) (by decide)).1]
  rfl

/-- C6 counterexample: the code's tail window is min(size, 65536), which
differs at size 65557 from the spec's min(size, 65536 + 22), and is too
small to cover a fixed EOCD record followed by a maximal 65535-byte
comment. -/
theorem c6_counterexample :
    searchSizeOf 65557 = 65536 ∧ specTailWindow 65557 = 65557 ∧
    searchSizeOf 65557 ≠ specTailWindow 65557 ∧
    searchSizeOf 70000 < 22 + 65535 :=
  ⟨by decide, by decide, by decide, by decide⟩

/-- C6 amended: the tail window is min(size, 65536) — 64 KiB without the
22-byte EOCD size — and an archive smaller than 65536 bytes is fetched
whole: the window range is [0, size). -/
theorem c6_amended (size : Nat) :
    searchSizeOf size = min size 65536 ∧
    (size < 65536 → searchSizeOf size = size ∧ tailWindowRange size = (0, size)) := by
  constructor
  · unfold searchSizeOf
    rcases Nat.lt_or_ge size 65536 with h | h
    · rw [if_pos (by omega), Nat.min_eq_left (by omega)]
    · rw [if_neg (by omega), Nat.min_eq_right (by omega)]
  · intro h
    have h1 : searchSizeOf size = size := by
      unfold searchSizeOf
      rw [if_pos (by omega)]
    refine ⟨h1, ?_⟩
    unfold tailWindowRange
    rw [h1]
    simp

/-- Witness for the amended C6 at the concrete size 100. -/
theorem c6_amended_witness :
    searchSizeOf 100 = min 100 65536 ∧ searchSizeOf 100 = 100 ∧
      tailWindowRange 100 = (0, 100) :=
  ⟨(c6_amended 100).1, ((c6_amended 100).2 (by decide)).1, ((c6_amended 100).2 (by decide)).2⟩

/-- C7 counterexample: a server whose first attempt times out and whose
retries would all succeed; getRange surfaces the network failure at once,
so no retry was ever made. -/
theorem c7_counterexample :
    getRange (failThenOk [5]) 0 1 = .error (.netErr .timeout) ∧
    failThenOk [5] 1 0 0 = .ok ⟨206, [5]⟩ :=
  ⟨rfl, rfl⟩

/-- C7 amended: getRange makes exactly one attempt — its result depends
only on the transport's answer for attempt 0, and a transport failure on
that single attempt surfaces immediately to the caller, with no retry
and no backoff. -/
theorem c7_amended :
    (∀ (t t2 : Transport) (s e : Nat), t 0 s (e - 1) = t2 0 s (e - 1) →
      getRange t s e = getRange t2 s e) ∧
    (∀ (t : Transport) (s e : Nat) (ne : NetErr), t 0 s (e - 1) = .error ne →
      getRange t s e = .error (.netErr ne)) := by
  constructor
  · intro t t2 s e h
    unfold getRange
    rw [h]
  · intro t s e ne h
    unfold getRange
    rw [h]

/-- Witness for the amended C7: the flaky server's failure propagates on
the first attempt at a concrete range. -/
theorem c7_amended_witness :
    getRange (failThenOk [5]) 2 4 = .error (.netErr .timeout) :=
  c7_amended.2 (failThenOk [5]) 2 4 .timeout rfl

/-- C3 counterexample: with the scenario archive [a.txt, dir/b.txt, c.bin]
and the pattern batch [c.bin, *.txt], the concatenated stdout is c.bin's
bytes followed by the txt entries — pattern-argument order, not
ArchiveIndex order. -/
theorem c3_counterexample :
    mainStdout demoArchive [cBinPat, starTxt] = [3, 1, 2] ∧
    catData (demoArchive.files.filter fun f =>
      matchPattern cBinPat f.name || matchPattern starTxt f.name) = [1, 2, 3] ∧
    ([3, 1, 2] : List Nat) ≠ [1, 2, 3] :=
  ⟨rfl, rfl, by decide⟩

/-- C3 amended: within a single pattern the matched non-directory entries
are written to the concatenated sink in ArchiveIndex order, but across a
batch of several patterns the output is grouped by pattern in argument
order, each group internally in index order. -/
theorem c3_amended (rzf : RemoteZipFile) (hnd : (rzf.files.map ZEntry.name).Nodup) :
    (∀ p : Str, extractFilesStdout rzf p =
      if rzf.files.any (fun f => matchPattern p f.name) then
        .ok (catData (rzf.files.filter fun f => matchPattern p f.name && !(isDirEntry f)))
      else .error .noFilesMatched) ∧
    (∀ (p : Str) (ps : List Str), mainStdout rzf (p :: ps) =
      (match extractFilesStdout rzf p with
       | .ok out => out
       | .error _ => []) ++ mainStdout rzf ps) := by
  constructor
  · intro p
    have h := extractLoop_spec rzf p rzf.files
      (fun f hf => extract_of_mem rzf f hnd hf) false []
    unfold extractFilesStdout
    rw [h]
    simp only [List.nil_append, Bool.false_or]
  · intro p ps
    rfl

/-- Witness for the amended C3: the spec scenario — pattern *.txt over the
archive [a.txt, dir/b.txt, c.bin] yields a.txt's bytes immediately
followed by dir/b.txt's bytes, with c.bin excluded. -/
theorem c3_amended_witness :
    extractFilesStdout demoArchive starTxt = .ok (aTxt.data ++ dirBTxt.data) := by
  rw [(c3_amended demoArchive (by decide)).1 starTxt]
  rfl

/-- C4: matchPattern behaves as specified — a star-free pattern matches
exactly the literally equal name; a one-star pattern pre ++ star ++ suf
with star-free parts matches exactly the names with prefix pre and suffix
suf (overlap allowed); the bare star matches every name including the
empty one; and the spec's concrete examples hold. -/
theorem c4_matchPattern :
    (∀ p n : Str, '*' ∉ p → (matchPattern p n = true ↔ p = n)) ∧
    (∀ (pre suf n : Str), '*' ∉ pre → '*' ∉ suf →
      matchPattern (pre ++ '*' :: suf) n = (pre.isPrefixOf n && suf.isSuffixOf n)) ∧
    (∀ n : Str, matchPattern ['*'] n = true) ∧
    matchPattern starTxt aTxt.name = true ∧
    matchPattern starTxt dirBTxt.name = true ∧
    matchPattern starTxt ['a', '.', 't', 'x', 't', '.', 'b', 'a', 'k'] = false ∧
    (∀ n : Str, matchPattern aTxt.name n = true ↔ n = aTxt.name) := by
  have part1 : ∀ p n : Str, '*' ∉ p → (matchPattern p n = true ↔ p = n) := by
    intro p n hp
    unfold matchPattern
    by_cases he : p = n
    · rw [if_pos he]
      simp [he]
    · rw [if_neg he, if_neg hp]
      simp [he]
  have part2 : ∀ (pre suf n : Str), '*' ∉ pre → '*' ∉ suf →
      matchPattern (pre ++ '*' :: suf) n = (pre.isPrefixOf n && suf.isSuffixOf n) := by
    intro pre suf n hpre hsuf
    have hsplit : goSplit '*' (pre ++ '*' :: suf) = [pre, suf] := by
      rw [goSplit_append_cons '*' pre suf hpre, goSplit_of_not_mem '*' suf hsuf]
    unfold matchPattern
    by_cases he : pre ++ '*' :: suf = n
    · rw [if_pos he]
      symm
      rw [Bool.and_eq_true]
      constructor
      · rw [List.isPrefixOf_iff_prefix, ← he]
        exact List.prefix_append pre _
      · rw [List.isSuffixOf_iff_suffix, ← he, List.append_cons]
        exact List.suffix_append _ suf
    · rw [if_neg he, if_pos (List.mem_append.mpr (Or.inr (List.mem_cons_self _ _))), hsplit]
  have part3 : ∀ n : Str, matchPattern ['*'] n = true := by
    intro n
    have h := part2 [] [] n (by simp) (by simp)
    simpa [List.isPrefixOf, List.isSuffixOf] using h
  refine ⟨part1, part2, part3, by decide, by decide, by decide, ?_⟩
  intro n
  rw [part1 aTxt.name n (by decide)]
  exact eq_comm

/-- Witness for C4: the star-free pattern a.txt against itself, and the
one-star decomposition of *.txt against dir/b.txt. -/
theorem c4_matchPattern_witness :
    matchPattern aTxt.name aTxt.name = true ∧
    matchPattern ([] ++ '*' :: ['.', 't', 'x', 't']) dirBTxt.name =
      (([] : Str).isPrefixOf dirBTxt.name && ['.', 't', 'x', 't'].isSuffixOf dirBTxt.name) :=
  ⟨(c4_matchPattern.1 aTxt.name aTxt.name (by decide)).mpr rfl,
   c4_matchPattern.2.1 [] ['.', 't', 'x', 't'] dirBTxt.name (by decide) (by decide)⟩

/-- C5 counterexample: the multi-wildcard pattern with stars between a, b
and c is not rejected with any invalid-pattern error — on an archive
containing abc it silently matches nothing, the extraction reporting the
no-files-matched error instead; and an entry literally named like the
pattern would even match it. -/
theorem c5_counterexample :
    matchPattern ['a', '*', 'b', '*', 'c'] ['a', 'b', 'c'] = false ∧
    extractFilesStdout ⟨['u'], 9, [⟨['a', 'b', 'c'], [7]⟩]⟩ ['a', '*', 'b', '*', 'c'] =
      .error .noFilesMatched ∧
    matchPattern ['a', '*', 'b', '*', 'c'] ['a', '*', 'b', '*', 'c'] = true :=
  ⟨by decide, rfl, by decide⟩

/-- C5 amended: a pattern with two or more wildcards is not rejected with
an explicit invalid-pattern error; it matches exactly the names literally
equal to the pattern, so extracting with it over an archive holding no
such literal name reports the no-files-matched error. -/
theorem c5_amended :
    (∀ p n : Str, 2 ≤ p.count '*' → (matchPattern p n = true ↔ p = n)) ∧
    (∀ (rzf : RemoteZipFile) (p : Str), 2 ≤ p.count '*' →
      (∀ f ∈ rzf.files, f.name ≠ p) →
      extractFilesStdout rzf p = .error .noFilesMatched) := by
  have part1 : ∀ p n : Str, 2 ≤ p.count '*' → (matchPattern p n = true ↔ p = n) := by
    intro p n hc
    unfold matchPattern
    by_cases he : p = n
    · rw [if_pos he]
      simp [he]
    · rw [if_neg he]
      have hmem : '*' ∈ p := List.count_pos_iff.mp (by omega)
      rw [if_pos hmem]
      have hlen : (goSplit '*' p).length = p.count '*' + 1 := goSplit_length '*' p
      cases hg : goSplit '*' p with
      | nil => exact absurd hg (goSplit_ne_nil '*' p)
      | cons a tl =>
        cases tl with
        | nil =>
          rw [hg] at hlen
          simp at hlen
          omega
        | cons b tl2 =>
          cases tl2 with
          | nil =>
            rw [hg] at hlen
            simp at hlen
            omega
          | cons c tl3 =>
            simp [he]
  refine ⟨part1, ?_⟩
  intro rzf p hc hnames
  have hno : ∀ f ∈ rzf.files, matchPattern p f.name = false := by
    intro f hf
    cases hbool : matchPattern p f.name with
    | false => rfl
    | true => exact absurd ((part1 p f.name hc).mp hbool).symm (hnames f hf)
  unfold extractFilesStdout
  rw [extractLoop_nomatch rzf p rzf.files hno false []]
  rfl

/-- Witness for the amended C5 at the concrete multi-star pattern and an
archive holding only an entry named abc. -/
theorem c5_amended_witness :
    (matchPattern ['a', '*', 'b', '*', 'c'] ['x'] = true ↔
      (['a', '*', 'b', '*', 'c'] : Str) = ['x']) ∧
    extractFilesStdout ⟨['v'], 9, [⟨['a', 'b', 'c'], [7]⟩]⟩ ['a', '*', 'b', '*', 'c'] =
      .error .noFilesMatched :=
  ⟨c5_amended.1 ['a', '*', 'b', '*', 'c'] ['x'] (by decide),
   c5_amended.2 ⟨['v'], 9, [⟨['a', 'b', 'c'], [7]⟩]⟩ ['a', '*', 'b', '*', 'c'] (by decide)
     (by decide)⟩

/-- C8: a probe response that omits byte-range support or a content
length makes NewRemoteZipFile fail before the central-directory stage
runs: the open aborts with the range-unsupported error (respectively the
missing-length error) and no byte-range request is ever issued on the
handle. -/
theorem c8_probe_abort (resp : ProbeResponse)
    (readCD : Nat → Except GoErr RemoteZipFile × List (Nat × Nat))
    (h : resp.acceptRanges ≠ bytesTok ∨ resp.contentLength ≤ 0) :
    ((NewRemoteZipFile (.ok resp) readCD).1.isOk = false ∧
     (NewRemoteZipFile (.ok resp) readCD).2 = []) ∧
    (resp.status = 200 → resp.acceptRanges ≠ bytesTok →
      NewRemoteZipFile (.ok resp) readCD = (.error .rangeUnsupported, [])) ∧
    (resp.status = 200 → resp.acceptRanges = bytesTok → resp.contentLength ≤ 0 →
      NewRemoteZipFile (.ok resp) readCD = (.error .noContentLength, [])) := by
  have hred : NewRemoteZipFile (.ok resp) readCD =
      (if resp.status ≠ 200 then (.error (.unexpectedStatus resp.status), [])
       else if resp.acceptRanges ≠ bytesTok then (.error .rangeUnsupported, [])
       else if resp.contentLength ≤ 0 then (.error .noContentLength, [])
       else readCD resp.contentLength.toNat) := rfl
  rw [hred]
  by_cases hst : resp.status = 200
  · rw [if_neg (not_not_intro hst)]
    by_cases har : resp.acceptRanges = bytesTok
    · rw [if_neg (not_not_intro har)]
      have hcl : resp.contentLength ≤ 0 := by
        rcases h with h1 | h1
        · exact absurd har h1
        · exact h1
      rw [if_pos hcl]
      refine ⟨⟨rfl, rfl⟩, ?_, ?_⟩
      · intro _ hne
        exact absurd har hne
      · intro _ _ _
        rfl
    · rw [if_pos har]
      refine ⟨⟨rfl, rfl⟩, ?_, ?_⟩
      · intro _ _
        rfl
      · intro _ hab
        exact absurd hab har
  · rw [if_pos hst]
    refine ⟨⟨rfl, rfl⟩, ?_, ?_⟩
    · intro h200
      exact absurd h200 hst
    · intro h200
      exact absurd h200 hst

/-- Witness for C8: a 200 probe without an Accept-Ranges header aborts
the open with the range-unsupported error and issues no range request,
although the continuation would have issued one. -/
theorem c8_probe_abort_witness :
    NewRemoteZipFile (.ok ⟨200, [], -1⟩)
      (fun size => (.ok ⟨['w'], size, []⟩, [(0, size)])) = (.error .rangeUnsupported, []) :=
  (c8_probe_abort ⟨200, [], -1⟩ _ (Or.inl (by decide))).2.1 rfl (by decide)

/-- C9 counterexample: extraction after Close succeeds — on the scenario
archive, Extract after Close returns a.txt's bytes instead of failing
with any use-after-close error. -/
theorem c9_counterexample :
    Extract (Close demoArchive) aTxt.name = .ok [1] ∧
    (Extract (Close demoArchive) aTxt.name).isOk = true :=
  ⟨rfl, rfl⟩

/-- C9 amended: Close only releases idle pooled connections — the handle
carries no closed state, so Open and Extract behave after Close exactly
as before it, and no use-after-close error exists. -/
theorem c9_amended (rzf : RemoteZipFile) (name : Str) :
    Open (Close rzf) name = Open rzf name ∧
    Extract (Close rzf) name = Extract rzf name ∧
    Close rzf = rzf :=
  ⟨rfl, rfl, rfl⟩

/-- C10: remoteReaderAt.ReadAt fails exactly when the underlying getRange
fails, propagating that error with count 0; on success it reports the
returned byte count with a nil error — in particular a short read of
fewer than len(p) bytes is a short count with no error. -/
theorem c10_readAt (t : Transport) (p : List Nat) (off : Nat) :
    ((ReadAt t p off).2.1 = none ↔ (getRange t off (off + p.length)).isOk = true) ∧
    (∀ e, getRange t off (off + p.length) = .error e → ReadAt t p off = (0, some e, p)) ∧
    (∀ data, getRange t off (off + p.length) = .ok data →
      (ReadAt t p off).1 = data.length ∧ (ReadAt t p off).2.1 = none ∧
      (data.length < p.length → (ReadAt t p off).1 < p.length)) := by
  unfold ReadAt
  cases hg : getRange t off (off + p.length) with
  | error e =>
    refine ⟨by simp [Except.isOk, Except.toBool], ?_, ?_⟩
    · intro e2 he2
      injection he2 with h2
      rw [h2]
    · intro data hd
      exact Except.noConfusion hd
  | ok data0 =>
    refine ⟨by simp [Except.isOk, Except.toBool], ?_, ?_⟩
    · intro e2 he2
      exact Except.noConfusion he2
    · intro data hd
      injection hd with h2
      rw [← h2]
      exact ⟨rfl, rfl, fun hlt => hlt⟩

/-- Witness for C10: a failing transport propagates its error with count
0, and a short 206 answer (1 byte for a 2-byte buffer) is reported as a
short count with a nil error. -/
theorem c10_readAt_witness :
    ReadAt (fun _ _ _ => .error .connReset) [0, 0] 5 =
      (0, some (.netErr .connReset), [0, 0]) ∧
    (ReadAt (honest206 [1, 2, 3]) [0, 0] 2).1 = 1 ∧
    (ReadAt (honest206 [1, 2, 3]) [0, 0] 2).2.1 = none :=
  ⟨(c10_readAt (fun _ _ _ => .error .connReset) [0, 0] 5).2.1 (.netErr .connReset) rfl,
   ((c10_readAt (honest206 [1, 2, 3]) [0, 0] 2).2.2 [3] rfl).1,
   ((c10_readAt (honest206 [1, 2, 3]) [0, 0] 2).2.2 [3] rfl).2.1⟩

end UnzipHttp
